import Mathlib

/-!
Shallow embedding of the bespoke (non-library) logic of the ANN-Fundamentals
notebooks: the `model_accuracy` helper and the `plot_confusion_matrix`
helper, each transcribed statement by statement from the notebook source.
Machine/NumPy numbers are modelled by exact rationals; a Python float result
is either a finite rational or NaN; failures are an explicit error channel.
-/

/-- Error conditions a call can surface. The notebooks' bespoke code raises
nothing of its own, so every error the embedding produces is a `libError`
(a default NumPy/matplotlib failure, carrying its message); `invalidInput`
is the custom condition the spec speaks of, present in the type so that
claims about the error discipline can be stated. -/
inductive PyError
  | invalidInput
  | libError (msg : String)
deriving DecidableEq

/-- A Python float result: a finite value (modelled exactly as a rational)
or NaN, which NumPy produces for `0/0` true division instead of raising. -/
inductive PyFloat
  | finite (q : ℚ)
  | nan
deriving DecidableEq

/-- Python integer rounding: nearest integer, ties to even (the rounding
`round` uses). -/
def roundHalfEven (q : ℚ) : ℤ :=
  let f := ⌊q⌋
  let r := q - (f : ℚ)
  if r < 1/2 then f
  else if 1/2 < r then f + 1
  else if f % 2 = 0 then f else f + 1

/-- Python `round(x, 2)`: round to two decimal places. -/
def pyRound2 (q : ℚ) : ℚ := (roundHalfEven (q * 100) : ℚ) / 100

/-- Embedding of `model_accuracy(pred, target)` (notebook cell, lines 323-334
of the first notebook):

    n = len(target)
    comparison = pred == target
    correct = comparison.sum()
    return round(correct/n, 2)

`pred == target` on equal-length 1-D integer arrays compares elementwise;
on mismatched lengths NumPy cannot broadcast the comparison and the call
fails with a library error (no custom validation exists in the source).
`comparison.sum()` counts the `True` entries. `correct/n` is true division:
for `n = 0` NumPy yields NaN (a RuntimeWarning, not an exception), and
`round(NaN, 2)` is NaN. -/
def model_accuracy (pred target : List ℤ) : Except PyError PyFloat :=
  let n := target.length
  if pred.length ≠ target.length then
    Except.error (PyError.libError ("operands could not be broadcast together"))
  else
    let comparison := List.zipWith (fun a b => decide (a = b)) pred target
    let correct := comparison.count true
    if n = 0 then Except.ok PyFloat.nan
    else Except.ok (PyFloat.finite (pyRound2 ((correct : ℚ) / (n : ℚ))))

/-- The number of indices `i` with `pred[i] == target[i]` (the spec's notion
of the number of matching positions). -/
def matchCount (pred target : List ℤ) : ℕ :=
  (List.range target.length).countP (fun i => decide (pred.getD i 0 = target.getD i 0))

theorem count_zipWith_eq_matchCount :
    ∀ (pred target : List ℤ), pred.length = target.length →
      (List.zipWith (fun a b => decide (a = b)) pred target).count true
        = matchCount pred target := by
  intro pred target
  induction target generalizing pred with
  | nil =>
    intro h
    have : pred = [] := List.length_eq_zero.mp h
    subst this
    rfl
  | cons b t ih =>
    intro h
    cases pred with
    | nil => simp at h
    | cons a p =>
      have hlen : p.length = t.length := by simpa using h
      have htail := ih p hlen
      simp only [List.zipWith, matchCount, List.length_cons,
        List.range_succ_eq_map, List.countP_cons, List.countP_map]
      simp only [matchCount] at htail
      simp only [List.count_cons, htail, matchCount]
      have hcomp : (List.range t.length).countP
            (fun i => decide ((a :: p).getD (i + 1) 0 = (b :: t).getD (i + 1) 0))
          = (List.range t.length).countP (fun i => decide (p.getD i 0 = t.getD i 0)) := by
        apply List.countP_congr
        intro i _
        simp [List.getD_cons_succ]
      by_cases hab : a = b <;>
        simp [hab, Function.comp_def, hcomp, Nat.add_comm]

/-- C1: for equal-length, non-empty integer sequences, `model_accuracy`
returns the fraction of positions where prediction and target agree,
divided by the length of the target, rounded to two decimal places. -/
theorem model_accuracy_correct (pred target : List ℤ)
    (hlen : pred.length = target.length) (hne : target ≠ []) :
    model_accuracy pred target
      = Except.ok (PyFloat.finite
          (pyRound2 ((matchCount pred target : ℚ) / (target.length : ℚ)))) := by
  have hn : target.length ≠ 0 := fun h => hne (List.length_eq_zero.mp h)
  have hc := count_zipWith_eq_matchCount pred target hlen
  simp [model_accuracy, hlen, hn, hc]

theorem model_accuracy_correct_witness :
    model_accuracy [1, 2, 3] [1, 5, 3]
      = Except.ok (PyFloat.finite
          (pyRound2 ((matchCount [1, 2, 3] [1, 5, 3] : ℚ)
            / (([1, 5, 3] : List ℤ).length : ℚ)))) :=
  model_accuracy_correct [1, 2, 3] [1, 5, 3] (by decide) (by decide)

/-- C2 counterexample: on two empty inputs `model_accuracy` returns NaN
(the NumPy `0/0` result); it does not fail, and in particular it does not
fail with the custom `invalidInput` condition. -/
theorem model_accuracy_empty_cex :
    model_accuracy ([] : List ℤ) ([] : List ℤ) = Except.ok PyFloat.nan ∧
      model_accuracy ([] : List ℤ) ([] : List ℤ)
        ≠ Except.error PyError.invalidInput := by
  constructor
  · rfl
  · intro h
    exact Except.noConfusion h

/-- C2 amended: `model_accuracy` performs no validation of its own. A length
mismatch surfaces as the library's broadcast error, empty inputs yield NaN
rather than a failure, and no input produces the custom `invalidInput`
condition. -/
theorem model_accuracy_no_validation :
    ∀ (pred target : List ℤ),
      (pred.length ≠ target.length →
        model_accuracy pred target
          = Except.error (PyError.libError ("operands could not be broadcast together"))) ∧
      (pred.length = target.length → target = [] →
        model_accuracy pred target = Except.ok PyFloat.nan) ∧
      model_accuracy pred target ≠ Except.error PyError.invalidInput := by
  intro pred target
  refine ⟨fun hne => ?_, fun hlen hnil => ?_, ?_⟩
  · simp [model_accuracy, hne]
  · subst hnil
    have : pred = [] := List.length_eq_zero.mp (by simpa using hlen)
    subst this
    rfl
  · by_cases hl : pred.length ≠ target.length
    · simp [model_accuracy, hl]
    · by_cases hn : target.length = 0
      · by_cases hp : pred = [] <;> simp [model_accuracy, hl, hn, hp]
      · simp [model_accuracy, hl, hn]

/-- Text color chosen for a cell annotation by `plot_confusion_matrix`. -/
inductive TextColor
  | white
  | black
deriving DecidableEq

/-- The observable rendering a call to `plot_confusion_matrix` produces: one
field per matplotlib call of the source, in source order. `cellTexts` lists
the `plt.text(j, i, cm[i, j], color=...)` calls as `(x, y, value, color)`
tuples in iteration order. -/
structure RenderTrace where
  figsize : ℕ × ℕ
  imshowData : List (List ℚ)
  interpMode : String
  cmapUsed : String
  titleText : String
  colorbar : Bool
  xtickMarks : List ℕ
  xtickLabels : List String
  xtickRot : ℕ
  ytickMarks : List ℕ
  ytickLabels : List String
  cellTexts : List (ℕ × ℕ × ℚ × TextColor)
  ylabelText : String
  xlabelText : String
deriving DecidableEq

/-- NumPy `cm.astype('float')`: the integer count matrix as a matrix of
(exact) floats. -/
def astypeFloat (m : List (List ℤ)) : List (List ℚ) :=
  m.map (fun row => row.map (fun x => (x : ℚ)))

/-- NumPy `cm.astype('float') / cm.sum(axis=1)[:, np.newaxis]`: the broadcast
divides every entry of row `i` by the sum of row `i`. A zero row sum is NOT
guarded in the source: NumPy then produces non-finite entries with a
RuntimeWarning (no exception); the total field division stands in for them
here, and `NormDividesByZero` below records when that happens. -/
def normalizeRows (m : List (List ℚ)) : List (List ℚ) :=
  m.map (fun row => row.map (fun x => x / row.sum))

/-- Holds when the row-normalization broadcast performs a division whose
divisor is zero: some row with at least one entry to divide has row sum 0. -/
def NormDividesByZero (m : List (List ℚ)) : Prop :=
  ∃ row ∈ m, row ≠ [] ∧ row.sum = 0

/-- NumPy `cm.shape[0]` of a 2-D array. -/
def shape0 (m : List (List ℚ)) : ℕ := m.length

/-- NumPy `cm.shape[1]` of a 2-D array (rows of a 2-D array all have the
length of the first row; see `Rect`). -/
def shape1 (m : List (List ℚ)) : ℕ := (m.headD []).length

/-- The matrix entry `cm[i, j]`. -/
def matGet (m : List (List ℚ)) (i j : ℕ) : ℚ := (m.getD i []).getD j 0

/-- Rectangularity: every row has the length of the first row. NumPy 2-D
arrays are rectangular by construction; the list-of-lists model makes the
assumption explicit. -/
def Rect (m : List (List ℚ)) : Prop :=
  ∀ row ∈ m, row.length = shape1 m

/-- The greatest element of a nonempty list (NumPy `max` reduction; the `[]`
case is unreachable because `cm.max()` on a zero-size array raises before
this value would be used). -/
def listMax : List ℚ → ℚ
  | [] => 0
  | x :: xs => xs.foldl max x

/-- NumPy `cm.max()`: the greatest entry of the matrix. -/
def matMax (m : List (List ℚ)) : ℚ := listMax m.flatten

/-- Being the maximum entry of a matrix: a member of the matrix that bounds
every entry (the spec-side notion used to state the threshold claim). -/
def IsMaxEntry (q : ℚ) (m : List (List ℚ)) : Prop :=
  q ∈ m.flatten ∧ ∀ x ∈ m.flatten, x ≤ q

/-- Embedding of `plot_confusion_matrix(cm, classes, normalize, title, cmap)`
(lines 249-277 of the first notebook), statement by statement:

    fig = plt.figure(figsize=(8, 8))
    plt.imshow(cm, interpolation='nearest', cmap=cmap)
    plt.title(title)
    plt.colorbar()
    tick_marks = np.arange(len(classes))
    plt.xticks(tick_marks, classes, rotation=45)
    plt.yticks(tick_marks, classes)
    if normalize:
        cm = cm.astype('float') / cm.sum(axis=1)[:, np.newaxis]
    thresh = cm.max() / 2.
    for i, j in itertools.product(range(cm.shape[0]), range(cm.shape[1])):
        plt.text(j, i, cm[i, j], horizontalalignment="center",
                 color="white" if cm[i, j] > thresh else "black")
    plt.tight_layout()
    plt.ylabel('True label')
    plt.xlabel('Predicted label')
    plt.show()

The caller's array is threaded explicitly as the second component of the
result so that its final value is part of the statement: no statement of the
body writes into it (`cm = ...` rebinds the local name to the fresh array
the `astype`/division allocate). `plt.imshow` receives the matrix the local
name holds BEFORE the `if normalize:` rebinding, so the heat map is always
drawn from the raw counts. `cm.max()` raises a library ValueError on a
zero-size array; every other step is total. -/
def plot_confusion_matrix_run (cm : List (List ℤ)) (classes : List String)
    (normalize : Bool) (title : String) (cmap : String) :
    Except PyError RenderTrace × List (List ℤ) :=
  let callerCell := cm
  let imshowArg := astypeFloat cm
  let tick_marks := List.range classes.length
  let cmLocal : List (List ℚ) :=
    if normalize then normalizeRows (astypeFloat cm) else astypeFloat cm
  if cmLocal.flatten.isEmpty then
    (Except.error (PyError.libError ("zero-size array to reduction operation maximum which has no identity")), callerCell)
  else
    let thresh := matMax cmLocal / 2
    let cellTexts := (List.range (shape0 cmLocal)).flatMap (fun i =>
      (List.range (shape1 cmLocal)).map (fun j =>
        (j, i, matGet cmLocal i j,
          if matGet cmLocal i j > thresh then TextColor.white else TextColor.black)))
    (Except.ok {
      figsize := (8, 8)
      imshowData := imshowArg
      interpMode := "nearest"
      cmapUsed := cmap
      titleText := title
      colorbar := true
      xtickMarks := tick_marks
      xtickLabels := classes
      xtickRot := 45
      ytickMarks := tick_marks
      ytickLabels := classes
      cellTexts := cellTexts
      ylabelText := "True label"
      xlabelText := "Predicted label" }, callerCell)

/-- The rendering a call to `plot_confusion_matrix` produces (first
notebook's definition). -/
def plot_confusion_matrix (cm : List (List ℤ)) (classes : List String)
    (normalize : Bool) (title : String) (cmap : String) :
    Except PyError RenderTrace :=
  (plot_confusion_matrix_run cm classes normalize title cmap).1

/-- Embedding of the `plot_confusion_matrix` defined in the Keras notebook
(lines 284-312 there), transcribed from that cell; its source text is
line-for-line the same as the first notebook's. -/
def plot_confusion_matrix_keras_run (cm : List (List ℤ)) (classes : List String)
    (normalize : Bool) (title : String) (cmap : String) :
    Except PyError RenderTrace × List (List ℤ) :=
  let callerCell := cm
  let imshowArg := astypeFloat cm
  let tick_marks := List.range classes.length
  let cmLocal : List (List ℚ) :=
    if normalize then normalizeRows (astypeFloat cm) else astypeFloat cm
  if cmLocal.flatten.isEmpty then
    (Except.error (PyError.libError ("zero-size array to reduction operation maximum which has no identity")), callerCell)
  else
    let thresh := matMax cmLocal / 2
    let cellTexts := (List.range (shape0 cmLocal)).flatMap (fun i =>
      (List.range (shape1 cmLocal)).map (fun j =>
        (j, i, matGet cmLocal i j,
          if matGet cmLocal i j > thresh then TextColor.white else TextColor.black)))
    (Except.ok {
      figsize := (8, 8)
      imshowData := imshowArg
      interpMode := "nearest"
      cmapUsed := cmap
      titleText := title
      colorbar := true
      xtickMarks := tick_marks
      xtickLabels := classes
      xtickRot := 45
      ytickMarks := tick_marks
      ytickLabels := classes
      cellTexts := cellTexts
      ylabelText := "True label"
      xlabelText := "Predicted label" }, callerCell)

/-- The rendering a call to the Keras notebook's `plot_confusion_matrix`
produces. -/
def plot_confusion_matrix_keras (cm : List (List ℤ)) (classes : List String)
    (normalize : Bool) (title : String) (cmap : String) :
    Except PyError RenderTrace :=
  (plot_confusion_matrix_keras_run cm classes normalize title cmap).1

theorem le_foldl_max_init (xs : List ℚ) : ∀ (a : ℚ), a ≤ xs.foldl max a := by
  induction xs with
  | nil => intro a; simp
  | cons x xs ih =>
    intro a
    exact le_trans (le_max_left a x) (ih (max a x))

theorem mem_le_foldl_max (xs : List ℚ) : ∀ (a x : ℚ), x ∈ xs → x ≤ xs.foldl max a := by
  induction xs with
  | nil => intro a x hx; simp at hx
  | cons y ys ih =>
    intro a x hx
    rcases List.mem_cons.mp hx with rfl | hx
    · exact le_trans (le_max_right a x) (le_foldl_max_init ys (max a x))
    · exact ih (max a y) x hx

theorem foldl_max_mem_or_init (xs : List ℚ) : ∀ (a : ℚ),
    xs.foldl max a = a ∨ xs.foldl max a ∈ xs := by
  induction xs with
  | nil => intro a; left; rfl
  | cons x xs ih =>
    intro a
    rw [List.foldl_cons]
    rcases ih (max a x) with h | h
    · rw [h]
      rcases max_choice a x with hm | hm
      · left; exact hm
      · right; rw [hm]; exact List.mem_cons_self x xs
    · right; exact List.mem_cons_of_mem x h

theorem listMax_mem (l : List ℚ) (h : l ≠ []) : listMax l ∈ l := by
  cases l with
  | nil => exact absurd rfl h
  | cons x xs =>
    rcases foldl_max_mem_or_init xs x with h' | h'
    · rw [listMax, h']; exact List.mem_cons_self x xs
    · exact List.mem_cons_of_mem x h'

theorem le_listMax (l : List ℚ) (x : ℚ) (hx : x ∈ l) : x ≤ listMax l := by
  cases l with
  | nil => simp at hx
  | cons y ys =>
    rcases List.mem_cons.mp hx with rfl | hx
    · exact le_foldl_max_init ys x
    · exact mem_le_foldl_max ys y x hx

theorem isMaxEntry_eq_matMax (q : ℚ) (m : List (List ℚ)) (h : IsMaxEntry q m) :
    q = matMax m := by
  obtain ⟨hmem, hub⟩ := h
  have hne : m.flatten ≠ [] := List.ne_nil_of_mem hmem
  exact le_antisymm (le_listMax m.flatten q hmem) (hub _ (listMax_mem m.flatten hne))

theorem shape0_normalizeRows (m : List (List ℚ)) :
    shape0 (normalizeRows m) = shape0 m := by
  simp [shape0, normalizeRows]

theorem shape1_normalizeRows (m : List (List ℚ)) :
    shape1 (normalizeRows m) = shape1 m := by
  cases m with
  | nil => rfl
  | cons r rs => simp [shape1, normalizeRows]

/-- The list of `plt.text` calls the annotation loop of
`plot_confusion_matrix` performs on the (possibly rebound) matrix it holds
after the `if normalize:` statement; the loop body is transcribed inside
`plot_confusion_matrix_run`, and this name abbreviates it for the theorems. -/
def plotCellTexts (m : List (List ℚ)) : List (ℕ × ℕ × ℚ × TextColor) :=
  (List.range (shape0 m)).flatMap (fun i =>
    (List.range (shape1 m)).map (fun j =>
      (j, i, matGet m i j,
        if matGet m i j > matMax m / 2 then TextColor.white else TextColor.black)))

theorem mem_plotCellTexts (m : List (List ℚ)) (p : ℕ × ℕ × ℚ × TextColor)
    (hp : p ∈ plotCellTexts m) :
    p.2.1 < shape0 m ∧ p.1 < shape1 m ∧ p.2.2.1 = matGet m p.2.1 p.1 ∧
      p.2.2.2 = (if matGet m p.2.1 p.1 > matMax m / 2
        then TextColor.white else TextColor.black) := by
  simp only [plotCellTexts, List.mem_flatMap, List.mem_map, List.mem_range] at hp
  obtain ⟨i, hi, j, hj, rfl⟩ := hp
  exact ⟨hi, hj, rfl, rfl⟩

theorem filter_flatMap_comm {α β : Type} (L : List α) (f : α → List β) (p : β → Bool) :
    (L.flatMap f).filter p = L.flatMap (fun a => (f a).filter p) := by
  induction L with
  | nil => rfl
  | cons a L ih => simp [List.filter_append, ih]

theorem filter_map_comm {α β : Type} (l : List α) (f : α → β) (p : β → Bool) :
    (l.map f).filter p = (l.filter (fun a => p (f a))).map f := by
  induction l with
  | nil => rfl
  | cons a l ih => by_cases h : p (f a) <;> simp [h, ih]

theorem filter_range_single (j : ℕ) :
    ∀ (s : ℕ), j < s → (List.range s).filter (fun x => decide (x = j)) = [j] := by
  intro s
  induction s with
  | zero => intro h; exact absurd h (Nat.not_lt_zero j)
  | succ n ih =>
    intro h
    rw [List.range_succ, List.filter_append]
    by_cases hj : j < n
    · rw [ih hj]
      have hne : ¬ (n = j) := by omega
      simp [hne]
    · have hjn : j = n := by omega
      subst hjn
      have hnil : (List.range j).filter (fun x => decide (x = j)) = [] := by
        rw [List.filter_eq_nil_iff]
        intro a ha
        simp only [List.mem_range] at ha
        simp
        omega
      rw [hnil]
      simp

theorem flatMap_eq_single {β : Type} (i : ℕ) (g : ℕ → List β) (e : β) (h1 : g i = [e]) :
    ∀ (s : ℕ), i < s → (∀ i', i' < s → i' ≠ i → g i' = []) →
      (List.range s).flatMap g = [e] := by
  intro s
  induction s with
  | zero => intro h _; exact absurd h (Nat.not_lt_zero i)
  | succ n ih =>
    intro hi h0
    rw [List.range_succ, List.flatMap_append]
    by_cases h : i < n
    · rw [ih h (fun i' hi' => h0 i' (by omega))]
      rw [List.flatMap_cons, h0 n (by omega) (by omega)]
      rfl
    · have : i = n := by omega
      subst this
      have hr : (List.range i).flatMap g = [] := by
        rw [List.flatMap_eq_nil_iff]
        intro a ha
        simp only [List.mem_range] at ha
        exact h0 a (by omega) (by omega)
      rw [hr, List.flatMap_cons, h1]
      rfl

theorem grid_filter_value (v : ℕ → ℕ → ℚ) (c : ℕ → ℕ → TextColor)
    (s0 s1 i j : ℕ) (hi : i < s0) (hj : j < s1) :
    ((((List.range s0).flatMap (fun i' => (List.range s1).map (fun j' =>
        (j', i', v i' j', c i' j'))))).filter
          (fun p => decide (p.1 = j ∧ p.2.1 = i))).map (fun p => p.2.2.1)
      = [v i j] := by
  rw [filter_flatMap_comm]
  have hinner : ((List.range s1).map (fun j' => (j', i, v i j', c i j'))).filter
      (fun p => decide (p.1 = j ∧ p.2.1 = i)) = [(j, i, v i j, c i j)] := by
    rw [filter_map_comm]
    have hcongr : (List.range s1).filter
          (fun j' => decide ((j', i, v i j', c i j').1 = j ∧ (j', i, v i j', c i j').2.1 = i))
        = (List.range s1).filter (fun x => decide (x = j)) := by
      apply List.filter_congr
      intro x _
      simp
    rw [hcongr, filter_range_single j s1 hj]
    rfl
  have hzero : ∀ i', i' < s0 → i' ≠ i →
      ((List.range s1).map (fun j' => (j', i', v i' j', c i' j'))).filter
        (fun p => decide (p.1 = j ∧ p.2.1 = i)) = [] := by
    intro i' _ hne
    rw [filter_map_comm]
    have : (List.range s1).filter
        (fun j' => decide ((j', i', v i' j', c i' j').1 = j ∧ (j', i', v i' j', c i' j').2.1 = i))
        = [] := by
      rw [List.filter_eq_nil_iff]
      intro a _
      simp [hne]
    rw [this]
    rfl
  rw [flatMap_eq_single i _ _ hinner s0 hi hzero]
  rfl

theorem plotCellTexts_filter (m : List (List ℚ)) (i j : ℕ)
    (hi : i < shape0 m) (hj : j < shape1 m) :
    ((plotCellTexts m).filter (fun p => decide (p.1 = j ∧ p.2.1 = i))).map
      (fun p => p.2.2.1) = [matGet m i j] := by
  unfold plotCellTexts
  exact grid_filter_value (fun i j => matGet m i j)
    (fun i j => if matGet m i j > matMax m / 2 then TextColor.white else TextColor.black)
    (shape0 m) (shape1 m) i j hi hj


theorem isEmpty_false_of_ne_nil {α : Type} (l : List α) (h : l ≠ []) :
    l.isEmpty = false := by
  cases l with
  | nil => exact absurd rfl h
  | cons a t => rfl

/-- The trace the success branch of `plot_confusion_matrix` builds, written
out once for the theorems that take the rendering apart. -/
def plotTrace (cm : List (List ℤ)) (classes : List String) (normalize : Bool)
    (title cmap : String) : RenderTrace :=
  { figsize := (8, 8)
    imshowData := astypeFloat cm
    interpMode := "nearest"
    cmapUsed := cmap
    titleText := title
    colorbar := true
    xtickMarks := List.range classes.length
    xtickLabels := classes
    xtickRot := 45
    ytickMarks := List.range classes.length
    ytickLabels := classes
    cellTexts := plotCellTexts
      (if normalize then normalizeRows (astypeFloat cm) else astypeFloat cm)
    ylabelText := "True label"
    xlabelText := "Predicted label" }

theorem plot_run_eq_error (cm : List (List ℤ)) (classes : List String) (normalize : Bool)
    (title cmap : String)
    (hc : (if normalize then normalizeRows (astypeFloat cm) else astypeFloat cm).flatten = []) :
    plot_confusion_matrix cm classes normalize title cmap
      = Except.error (PyError.libError
          ("zero-size array to reduction operation maximum which has no identity")) := by
  have hEmpty : (if normalize then normalizeRows (astypeFloat cm)
      else astypeFloat cm).flatten.isEmpty = true := by
    rw [hc]
    rfl
  simp only [plot_confusion_matrix, plot_confusion_matrix_run, hEmpty]
  simp

theorem plot_run_eq_ok (cm : List (List ℤ)) (classes : List String) (normalize : Bool)
    (title cmap : String)
    (hc : (if normalize then normalizeRows (astypeFloat cm) else astypeFloat cm).flatten ≠ []) :
    plot_confusion_matrix cm classes normalize title cmap
      = Except.ok (plotTrace cm classes normalize title cmap) := by
  have hEmpty := isEmpty_false_of_ne_nil _ hc
  simp only [plot_confusion_matrix, plot_confusion_matrix_run, hEmpty]
  simp [plotTrace, plotCellTexts]

theorem plot_ok_elim (cm : List (List ℤ)) (classes : List String) (normalize : Bool)
    (title cmap : String) (t : RenderTrace)
    (h : plot_confusion_matrix cm classes normalize title cmap = Except.ok t) :
    (if normalize then normalizeRows (astypeFloat cm) else astypeFloat cm).flatten ≠ [] ∧
      t = plotTrace cm classes normalize title cmap := by
  by_cases hc : (if normalize then normalizeRows (astypeFloat cm)
      else astypeFloat cm).flatten = []
  · rw [plot_run_eq_error cm classes normalize title cmap hc] at h
    exact absurd h (by simp)
  · rw [plot_run_eq_ok cm classes normalize title cmap hc] at h
    exact ⟨hc, (Except.ok.inj h).symm⟩

/-- C3 counterexample: with `normalize = true` on the matrix `[[1, 3]]`, the
data handed to `plt.imshow` (the heat-mapped grid) is the raw count matrix,
not the row-normalized one: the source calls `imshow` before the
`if normalize:` rebinding. -/
theorem plot_normalize_raw_grid_cex :
    (plot_confusion_matrix [[1, 3]] ["0", "1"] true ("t") ("B")).map
        RenderTrace.imshowData = Except.ok (astypeFloat [[1, 3]]) ∧
      astypeFloat [[1, 3]] ≠ normalizeRows (astypeFloat [[1, 3]]) := by
  constructor
  · rfl
  · simp [astypeFloat, normalizeRows]

/-- C3 amended: with `normalize = true`, each row is divided by its row sum
after the heat map is drawn but before the cell annotations are rendered: the
grid (`imshow`) always shows the raw counts, while every cell annotation
carries the corresponding entry of the row-normalized matrix. -/
theorem plot_normalize_after_imshow (cm : List (List ℤ)) (classes : List String)
    (title cmap : String) (t : RenderTrace)
    (h : plot_confusion_matrix cm classes true title cmap = Except.ok t) :
    t.imshowData = astypeFloat cm ∧
      ∀ p ∈ t.cellTexts, p.2.2.1 = matGet (normalizeRows (astypeFloat cm)) p.2.1 p.1 := by
  obtain ⟨-, rfl⟩ := plot_ok_elim cm classes true title cmap t h
  refine ⟨rfl, ?_⟩
  intro p hp
  simp only [plotTrace, if_true] at hp
  exact (mem_plotCellTexts _ p hp).2.2.1

theorem plot_normalize_after_imshow_witness :
    (plotTrace [[1]] ["0"] true ("t") ("B")).imshowData = astypeFloat [[1]] ∧
      ∀ p ∈ (plotTrace [[1]] ["0"] true ("t") ("B")).cellTexts,
        p.2.2.1 = matGet (normalizeRows (astypeFloat [[1]])) p.2.1 p.1 :=
  plot_normalize_after_imshow [[1]] ["0"] ("t") ("B")
    (plotTrace [[1]] ["0"] true ("t") ("B")) rfl

/-- C4: a cell annotation is colored white exactly when the (possibly
normalized) cell value strictly exceeds half the maximum entry of the
(possibly normalized) matrix, and black otherwise. -/
theorem plot_text_color_threshold (cm : List (List ℤ)) (classes : List String)
    (normalize : Bool) (title cmap : String) (t : RenderTrace)
    (h : plot_confusion_matrix cm classes normalize title cmap = Except.ok t)
    (M : ℚ)
    (hM : IsMaxEntry M (if normalize then normalizeRows (astypeFloat cm) else astypeFloat cm)) :
    ∀ p ∈ t.cellTexts, (p.2.2.2 = TextColor.white ↔ M / 2 < p.2.2.1) := by
  obtain ⟨-, rfl⟩ := plot_ok_elim cm classes normalize title cmap t h
  intro p hp
  simp only [plotTrace] at hp
  have hmax := isMaxEntry_eq_matMax M _ hM
  obtain ⟨-, -, hval, hcol⟩ := mem_plotCellTexts _ p hp
  subst hmax
  rw [hcol, hval]
  by_cases hgt : matGet (if normalize then normalizeRows (astypeFloat cm)
      else astypeFloat cm) p.2.1 p.1 > matMax (if normalize then normalizeRows (astypeFloat cm)
      else astypeFloat cm) / 2
  · simp [hgt]
  · simp [hgt]

theorem plot_text_color_threshold_witness :
    (((0 : ℕ), (0 : ℕ), (1 : ℚ), TextColor.white).2.2.2 = TextColor.white ↔
      (1 : ℚ) / 2 < ((0 : ℕ), (0 : ℕ), (1 : ℚ), TextColor.white).2.2.1) := by
  refine plot_text_color_threshold [[1]] ["0"] false ("t") ("B")
    (plotTrace [[1]] ["0"] false ("t") ("B")) rfl 1 ⟨?_, ?_⟩
    ((0 : ℕ), (0 : ℕ), (1 : ℚ), TextColor.white) ?_
  · simp [astypeFloat]
  · simp [astypeFloat]
  · simp [plotTrace, plotCellTexts, shape0, shape1, matGet, matMax, listMax, astypeFloat]
    norm_num

/-- C5: for every row index `i` and column index `j` of the input matrix
there is exactly one cell annotation at grid position `(x, y) = (j, i)`, and
its content is the `(i, j)` entry of the normalized matrix when `normalize`
is true, of the raw matrix otherwise. -/
theorem plot_annotates_every_cell (cm : List (List ℤ)) (classes : List String)
    (normalize : Bool) (title cmap : String) (t : RenderTrace)
    (h : plot_confusion_matrix cm classes normalize title cmap = Except.ok t)
    (_hrect : Rect (astypeFloat cm)) (i j : ℕ)
    (hi : i < shape0 (astypeFloat cm)) (hj : j < shape1 (astypeFloat cm)) :
    ((t.cellTexts.filter (fun p => decide (p.1 = j ∧ p.2.1 = i))).map
        (fun p => p.2.2.1))
      = [matGet (if normalize then normalizeRows (astypeFloat cm) else astypeFloat cm) i j] := by
  obtain ⟨-, rfl⟩ := plot_ok_elim cm classes normalize title cmap t h
  simp only [plotTrace]
  have hi' : i < shape0 (if normalize then normalizeRows (astypeFloat cm)
      else astypeFloat cm) := by
    cases normalize <;> simpa [shape0_normalizeRows] using hi
  have hj' : j < shape1 (if normalize then normalizeRows (astypeFloat cm)
      else astypeFloat cm) := by
    cases normalize <;> simpa [shape1_normalizeRows] using hj
  exact plotCellTexts_filter _ i j hi' hj'

theorem plot_annotates_every_cell_witness :
    (((plotTrace [[1]] ["0"] false ("t") ("B")).cellTexts.filter
        (fun p => decide (p.1 = 0 ∧ p.2.1 = 0))).map (fun p => p.2.2.1))
      = [matGet (if false then normalizeRows (astypeFloat [[1]]) else astypeFloat [[1]]) 0 0] :=
  plot_annotates_every_cell [[1]] ["0"] false ("t") ("B")
    (plotTrace [[1]] ["0"] false ("t") ("B")) rfl
    (by rintro row hrow
        simp [astypeFloat] at hrow
        subst hrow
        rfl)
    0 0 (by decide) (by decide)

theorem model_accuracy_ne_invalidInput (pred target : List ℤ) :
    model_accuracy pred target ≠ Except.error PyError.invalidInput := by
  by_cases hl : pred.length ≠ target.length
  · simp [model_accuracy, hl]
  · by_cases hn : target.length = 0
    · by_cases hp : pred = [] <;> simp [model_accuracy, hl, hn, hp]
    · simp [model_accuracy, hl, hn]

theorem plot_ne_invalidInput (cm : List (List ℤ)) (classes : List String)
    (normalize : Bool) (title cmap : String) :
    plot_confusion_matrix cm classes normalize title cmap
      ≠ Except.error PyError.invalidInput := by
  by_cases hc : (if normalize then normalizeRows (astypeFloat cm)
      else astypeFloat cm).flatten = []
  · rw [plot_run_eq_error cm classes normalize title cmap hc]
    simp
  · rw [plot_run_eq_ok cm classes normalize title cmap hc]
    simp

/-- C6: the bespoke functions raise no custom error condition of their own:
no input makes `model_accuracy` or `plot_confusion_matrix` surface the
custom `invalidInput` condition; any failure is a default library error. -/
theorem bespoke_no_custom_errors :
    ∀ (pred target : List ℤ) (cm : List (List ℤ)) (classes : List String)
      (normalize : Bool) (title cmap : String),
      model_accuracy pred target ≠ Except.error PyError.invalidInput ∧
        plot_confusion_matrix cm classes normalize title cmap
          ≠ Except.error PyError.invalidInput :=
  fun pred target cm classes normalize title cmap =>
    ⟨model_accuracy_ne_invalidInput pred target,
      plot_ne_invalidInput cm classes normalize title cmap⟩

/-- C7: the rendering carries tick marks at positions `0 .. n-1` on both
axes, labeled with the class labels in the given order, where `n` is the
number of class labels. -/
theorem plot_ticks_labeled (cm : List (List ℤ)) (classes : List String)
    (normalize : Bool) (title cmap : String) (t : RenderTrace)
    (h : plot_confusion_matrix cm classes normalize title cmap = Except.ok t) :
    t.xtickMarks = List.range classes.length ∧ t.xtickLabels = classes ∧
      t.ytickMarks = List.range classes.length ∧ t.ytickLabels = classes := by
  obtain ⟨-, rfl⟩ := plot_ok_elim cm classes normalize title cmap t h
  exact ⟨rfl, rfl, rfl, rfl⟩

theorem plot_ticks_labeled_witness :
    (plotTrace [[1]] ["0"] false ("t") ("B")).xtickMarks
        = List.range (["0"] : List String).length ∧
      (plotTrace [[1]] ["0"] false ("t") ("B")).xtickLabels = ["0"] ∧
      (plotTrace [[1]] ["0"] false ("t") ("B")).ytickMarks
        = List.range (["0"] : List String).length ∧
      (plotTrace [[1]] ["0"] false ("t") ("B")).ytickLabels = ["0"] :=
  plot_ticks_labeled [[1]] ["0"] false ("t") ("B")
    (plotTrace [[1]] ["0"] false ("t") ("B")) rfl

/-- C8: the `plot_confusion_matrix` of the scikit-learn notebook and the one
of the Keras notebook are the same function: on every matrix, class-label
list, normalize flag, title and colormap they produce the same rendering and
leave the caller's matrix the same. -/
theorem plot_sklearn_keras_identical :
    ∀ (cm : List (List ℤ)) (classes : List String) (normalize : Bool)
      (title cmap : String),
      plot_confusion_matrix cm classes normalize title cmap
          = plot_confusion_matrix_keras cm classes normalize title cmap ∧
        plot_confusion_matrix_run cm classes normalize title cmap
          = plot_confusion_matrix_keras_run cm classes normalize title cmap :=
  fun _ _ _ _ _ => ⟨rfl, rfl⟩

/-- C9: neither definition of `plot_confusion_matrix` writes into the
caller's matrix: the array cell the caller passed holds the same entries
after the call as before it, whatever the `normalize` flag. -/
theorem plot_does_not_mutate_input :
    ∀ (cm : List (List ℤ)) (classes : List String) (normalize : Bool)
      (title cmap : String),
      (plot_confusion_matrix_run cm classes normalize title cmap).2 = cm ∧
        (plot_confusion_matrix_keras_run cm classes normalize title cmap).2 = cm := by
  intro cm classes normalize title cmap
  refine ⟨?_, ?_⟩
  · simp only [plot_confusion_matrix_run]
    split <;> split <;> rfl
  · simp only [plot_confusion_matrix_keras_run]
    split <;> split <;> rfl

/-- C10: if every row of the matrix handed to the row-normalization step has
a strictly positive sum, no division by zero occurs; the division is
unguarded, so a matrix with a nonempty all-zero row does reach a division by
zero. -/
theorem normalization_div_by_zero :
    ∀ (cm : List (List ℤ)),
      ((∀ row ∈ astypeFloat cm, 0 < row.sum) → ¬ NormDividesByZero (astypeFloat cm)) ∧
        ((∃ row ∈ astypeFloat cm, row ≠ [] ∧ ∀ x ∈ row, x = 0) →
          NormDividesByZero (astypeFloat cm)) := by
  intro cm
  constructor
  · rintro hpos ⟨row, hmem, hne, hsum⟩
    exact absurd hsum (ne_of_gt (hpos row hmem))
  · rintro ⟨row, hmem, hne, hzero⟩
    exact ⟨row, hmem, hne, List.sum_eq_zero hzero⟩
